import Mathlib

/-!
Verification development for the architecture-journey recommendation core.

This file gives a shallow embedding of the backend recommendation engine
(`src/backend/src/services/RecommendationEngine.ts`) and of the decision-tree
validator (`DecisionTreeValidator`), over the typed data model of
`src/backend/src/types/index.ts`, and proves the specified properties of
`calculate` (path validation, score accumulation, winner determination with
tie-breaking, confidence classification) and of `validate`.

Modelling conventions:
* JS `Record<string, T>` objects are insertion-ordered association lists
  `List (String × T)`; updating an existing key keeps its position, a new key
  is appended (JS own-property insertion order for string keys).
* JS `number` score values are `Int` (the data model and spec use integer
  score contributions).
* `null` is `Option.none`; thrown errors are the `Except.error` branch.
* The engine's `createError` attaches a typed `code` to an `Error`; the one
  plain `new Error(...)` in `calculate` carries no code.  `CalcError`
  distinguishes the two shapes.
-/

namespace ArchJourney

/-- Answer supplied by the client: a `(questionId, optionId)` pair. -/
structure Answer where
  questionId : String
  optionId : String
deriving Repr, DecidableEq

/-- Question option (source interface `Option`; renamed `Opt` because `Option`
is taken by the Lean prelude).  `nextQuestionId = none` is the terminal
sentinel (`null` in the source); `scores` maps outcome keys to points. -/
structure Opt where
  id : String
  label : String
  nextQuestionId : Option String
  scores : List (String × Int)
deriving Repr, DecidableEq

/-- Question: id, display text, and its ordered options. -/
structure Question where
  id : String
  text : String
  options : List Opt
deriving Repr, DecidableEq

/-- Outcome descriptor (source interface `Result`). -/
structure Result where
  name : String
  reasoning : String
  tradeoffs : List String
  whenToReconsider : String
  bestFor : String
deriving Repr, DecidableEq

/-- Decision tree (source interface `DecisionTree`, without the optional
metadata block, which the engine and validator never read). -/
structure DecisionTree where
  id : String
  title : String
  description : String
  version : String
  questions : List Question
  results : List (String × Result)
deriving Repr, DecidableEq

/-- The `ErrorCode` enum of `src/backend/src/types/index.ts`. -/
inductive ErrorCode where
  | TREE_NOT_FOUND
  | TREE_INVALID
  | QUESTION_NOT_FOUND
  | INVALID_QUESTION_ID
  | OPTION_NOT_FOUND
  | INVALID_OPTION
  | MISSING_ANSWERS
  | INVALID_ANSWER_PATH
  | SAVE_FAILED
  | SLUG_COLLISION
  | NO_RECOMMENDATION
  | RESULT_NOT_FOUND
  | VALIDATION_ERROR
  | INTERNAL_ERROR
  | RATE_LIMIT_EXCEEDED
deriving Repr, DecidableEq

/-- Errors thrown by the engine.  `typed` is `createError(code, message)`
(an `Error` with a `code` property attached); `untyped` is the bare
`new Error(message)` thrown in `calculate` when the winner has no `Result`
entry — it carries no `ErrorCode`. -/
inductive CalcError where
  | typed (code : ErrorCode) (message : String)
  | untyped (message : String)
deriving Repr, DecidableEq

/-- Confidence label returned by the engine. -/
inductive Confidence where
  | high
  | medium
  | low
deriving Repr, DecidableEq

/-- Output structure of `calculate` (source interface
`RecommendationResult`). -/
structure RecommendationResult where
  recommendation : String
  scores : List (String × Int)
  result : Result
  answers : List Answer
  tieBreaker : Option String
  confidence : Confidence
deriving Repr, DecidableEq

/-! Association-list primitives shared by the embeddings. -/

/-- First value stored under key `k`, if any (JS `obj[k]` when `k` is an own
property; the lists the engine builds have unique keys). -/
def lookup? (s : List (String × Int)) (k : String) : Option Int :=
  (s.find? (fun p => p.1 == k)).map (fun p => p.2)

/-- Value stored under `k`, defaulting to `0` (JS `obj[k] || 0`; a stored `0`
is falsy in JS and also yields `0`, so the default is exact). -/
def lookupD (s : List (String × Int)) (k : String) : Int :=
  (lookup? s k).getD 0

/-- Lookup in `tree.results`.  Models JS object indexing: the typed trees the
system builds have unique keys; for generality the last binding wins, as it
would when a JS object literal repeats a key. -/
def resultsLookup (rs : List (String × Result)) (k : String) : Option Result :=
  rs.foldl (fun acc p => if p.1 = k then some p.2 else acc) none

/-- Models `new Map(tree.questions.map(q => [q.id, q])).get(qid)`: for a
duplicated id the later entry overwrites the earlier one. -/
def questionLookup (qs : List Question) (qid : String) : Option Question :=
  qs.foldl (fun acc q => if q.id = qid then some q else acc) none

/-- Models `question.options.find(opt => opt.id === answer.optionId)`:
first match wins. -/
def findOption (q : Question) (oid : String) : Option Opt :=
  q.options.find? (fun o => o.id == oid)

/-! Embedding of `RecommendationEngine` (RecommendationEngine.ts). -/

/-- Models `tree.questions[0]?.id || null`: no questions, or a first question
whose id is the empty string (falsy in JS), give `null`. -/
def initialExpected (tree : DecisionTree) : Option String :=
  match tree.questions with
  | [] => none
  | q :: _ => if q.id = "" then none else some q.id

/-- Renders the expected-question id for the error message
(JS template interpolation prints `null` for a null value). -/
def expectedText : Option String → String
  | none => "null"
  | some s => s

/-- The `for` loop of `validateAnswerPath` plus its post-loop end-node check.
`expected` is the running `expectedQuestionId`, `i` the loop index (used only
in the out-of-sequence error message).  Reaching a terminal option (`none`)
breaks out of the loop at once, after which the post-loop check passes, so
any remaining answers are never examined. -/
def walkPath (tree : DecisionTree) (expected : Option String) (i : Nat) :
    List Answer → Except CalcError Unit
  | [] =>
    if expected.isSome then
      .error (.typed .INVALID_ANSWER_PATH "Answer path did not reach a valid end node")
    else
      .ok ()
  | a :: rest =>
    if some a.questionId ≠ expected then
      .error (.typed .INVALID_ANSWER_PATH
        ("Expected question " ++ expectedText expected ++ " but got " ++
          a.questionId ++ " at position " ++ toString i))
    else
      match questionLookup tree.questions a.questionId with
      | none =>
        .error (.typed .QUESTION_NOT_FOUND
          ("Question " ++ a.questionId ++ " not found in tree"))
      | some q =>
        match findOption q a.optionId with
        | none =>
          .error (.typed .OPTION_NOT_FOUND
            ("Option " ++ a.optionId ++ " not found in question " ++ a.questionId))
        | some o =>
          match o.nextQuestionId with
          | none => .ok ()
          | some nq => walkPath tree (some nq) (i + 1) rest

/-- `RecommendationEngine.validateAnswerPath`. -/
def validateAnswerPath (tree : DecisionTree) (answers : List Answer) :
    Except CalcError Unit :=
  match answers with
  | [] => .error (.typed .MISSING_ANSWERS "No answers provided")
  | _ :: _ => walkPath tree (initialExpected tree) 0 answers

/-- Models `scores[tech] = (scores[tech] || 0) + points` on a JS object:
an existing key is updated in place, a new key is appended. -/
def insertAdd (s : List (String × Int)) (tech : String) (points : Int) :
    List (String × Int) :=
  if s.any (fun p => p.1 == tech) then
    s.map (fun p => if p.1 == tech then (p.1, p.2 + points) else p)
  else
    s ++ [(tech, points)]

/-- The `for (const [tech, points] of Object.entries(option.scores))` loop. -/
def scoreEntries (entries : List (String × Int)) (s : List (String × Int)) :
    List (String × Int) :=
  entries.foldl (fun acc p => insertAdd acc p.1 p.2) s

/-- Resolution of an answer to the option it selects: the question looked up
in the question map, then the option found in it (the combination of the two
guarded `continue`s of `calculateScores` and of the two corresponding checks
of `validateAnswerPath`). -/
def resolveAnswer (tree : DecisionTree) (a : Answer) : Option Opt :=
  match questionLookup tree.questions a.questionId with
  | none => none
  | some q => findOption q a.optionId

/-- One iteration of the scoring loop: an answer whose question or option
cannot be found is silently skipped (`continue` in the source). -/
def scoreAnswer (tree : DecisionTree) (s : List (String × Int)) (a : Answer) :
    List (String × Int) :=
  match resolveAnswer tree a with
  | none => s
  | some o => scoreEntries o.scores s

/-- `RecommendationEngine.calculateScores`.  Note that it iterates over the
whole answer list, with no truncation at a terminal option. -/
def calculateScores (tree : DecisionTree) (answers : List Answer) :
    List (String × Int) :=
  answers.foldl (scoreAnswer tree) []

/-- Maximum of a non-empty list of integers (`Math.max(...values)`;
`determineWinner` only applies it to a non-empty list, and
`maxIntList [] = 0` is never relied upon). -/
def maxIntList : List Int → Int
  | [] => 0
  | v :: vs => vs.foldl max v

/-- The keys achieving the maximum score, in key order
(`Object.keys(scores).filter(tech => scores[tech] === maxScore)`). -/
def winnersOf (s : List (String × Int)) : List String :=
  (s.map (fun p => p.1)).filter (fun t => lookupD s t == maxIntList (s.map (fun p => p.2)))

/-- `RecommendationEngine.breakTie`.  The `_scores` parameter is unused, as in
the source.  Strategy 1 fires only when exactly one tied key has a `Result`
entry; otherwise the alphabetically first tied key wins (JS default `sort()`
compares strings; stable merge sort with `≤`). -/
def breakTie (tiedTechnologies : List String) (_scores : List (String × Int))
    (tree : DecisionTree) : String × String :=
  let withResults := tiedTechnologies.filter (fun t => (resultsLookup tree.results t).isSome)
  if withResults.length = 1 then
    (withResults.headD "", "Selected based on available documentation and guidance")
  else
    let alphabetical := tiedTechnologies.mergeSort (fun a b => a ≤ b)
    let winner := alphabetical.headD ""
    (winner,
      "Tied with " ++ toString tiedTechnologies.length ++ " options (" ++
        String.intercalate ", " tiedTechnologies ++
        "). Consider reviewing your requirements - both may be equally suitable.")

/-- `RecommendationEngine.determineWinner`. -/
def determineWinner (scores : List (String × Int)) (tree : DecisionTree) :
    Except CalcError (String × Option String) :=
  let technologies := scores.map (fun p => p.1)
  if technologies.length = 0 then
    .error (.typed .NO_RECOMMENDATION "No technologies scored any points")
  else
    let winners := winnersOf scores
    if winners.length = 1 then
      .ok (winners.headD "", none)
    else
      let wtb := breakTie winners scores tree
      .ok (wtb.1, some wtb.2)

/-- `RecommendationEngine.calculateConfidence`.  `lookupD scores winner`
models `scores[winner]`; `calculate` only ever passes a `winner` that is a
key of `scores` (for an absent key the JS code would compute with `NaN` and
also land in the `low` branch, as `lookupD`'s default `0` does, because
`secondHighest` is never negative).  `Math.max(...otherScores, 0)` always
includes `0`, i.e. it is `foldl max 0`. -/
def calculateConfidence (scores : List (String × Int)) (winner : String) :
    Confidence :=
  let scoreValues := scores.map (fun p => p.2)
  let winnerScore := lookupD scores winner
  let otherScores := scoreValues.filter
    (fun v => v != winnerScore || (scoreValues.filter (fun sv => sv == winnerScore)).length > 1)
  let secondHighest := otherScores.foldl max 0
  let difference := winnerScore - secondHighest
  if difference ≥ 5 then .high
  else if difference ≥ 2 then .medium
  else .low

/-- `RecommendationEngine.calculate`: path validation, score accumulation,
winner determination, confidence classification, then the `Result` lookup
whose failure is the one untyped error of the engine. -/
def calculate (tree : DecisionTree) (answers : List Answer) :
    Except CalcError RecommendationResult :=
  match validateAnswerPath tree answers with
  | .error e => .error e
  | .ok _ =>
    let scores := calculateScores tree answers
    match determineWinner scores tree with
    | .error e => .error e
    | .ok wtb =>
      let confidence := calculateConfidence scores wtb.1
      match resultsLookup tree.results wtb.1 with
      | none => .error (.untyped ("Result not found for technology: " ++ wtb.1))
      | some result =>
        .ok { recommendation := wtb.1, scores := scores, result := result,
              answers := answers, tieBreaker := wtb.2, confidence := confidence }

/-! Embedding of `DecisionTreeValidator`.

The source's `validate(tree: any)` first checks the JS shape of its argument
(`validateBasicStructure`).  The embedding is over the typed `DecisionTree`
model, on which the `TREE_NULL`, `INVALID_QUESTIONS`, `INVALID_RESULTS`,
`MISSING_SCORES` and `INVALID_SCORE` branches cannot fire (they test for
absent fields, non-arrays and non-numeric score values); the remaining
branches are embedded exactly.  JS falsy tests on the typed string fields
reduce to comparison with the empty string. -/

/-- Models the JS blank test `!x || x.trim().length === 0`: true exactly when
every character is whitespace (so also for the empty string).  Implemented
over the character list rather than `String.trim` so that it reduces inside
the kernel; `Char.isWhitespace` covers space, tab, LF and CR, the whitespace
forms occurring in this development. -/
def jsBlank (s : String) : Bool :=
  s.data.all Char.isWhitespace

/-- Validation error record (the constant `type: 'error'` field is omitted). -/
structure ValidationError where
  code : String
  message : String
  location : Option String
deriving Repr, DecidableEq

/-- Validation warning record (the constant `type: 'warning'` field is
omitted). -/
structure ValidationWarning where
  code : String
  message : String
  location : Option String
deriving Repr, DecidableEq

/-- Output of `DecisionTreeValidator.validate`. -/
structure ValidationResult where
  isValid : Bool
  errors : List ValidationError
  warnings : List ValidationWarning
deriving Repr, DecidableEq

/-- `validateBasicStructure`, restricted to typed trees: a missing/empty id,
a missing/empty title, and an empty questions array are the reachable
errors.  The early `return` after the `Array.isArray` check cannot trigger
on a typed tree. -/
def validateBasicStructure (tree : DecisionTree) : List ValidationError :=
  (if tree.id = "" then
    [{ code := "MISSING_TREE_ID", message := "Tree must have a valid id", location := none }]
   else []) ++
  (if tree.title = "" then
    [{ code := "MISSING_TREE_TITLE", message := "Tree must have a title", location := none }]
   else []) ++
  (if tree.questions.length = 0 then
    [{ code := "EMPTY_TREE", message := "Tree must have at least one question", location := none }]
   else [])

/-- The `options.forEach` body of `validateOptions`: `j` is the index, `seen`
the `optionIds` set accumulated so far (ids are added only when present and
not yet seen, as in the source). -/
def validateOptionsGo (qloc : String) : Nat → List String → List Opt →
    List ValidationError × List ValidationWarning
  | _, _, [] => ([], [])
  | j, seen, o :: rest =>
    let loc := qloc ++ ".options[" ++ toString j ++ "]"
    let idErrs :=
      if o.id = "" then
        [{ code := "MISSING_OPTION_ID", message := "Option missing id", location := some loc }]
      else if seen.contains o.id then
        [{ code := "DUPLICATE_OPTION_ID", message := "Duplicate option id: " ++ o.id,
           location := some loc }]
      else []
    let seen' := if o.id = "" then seen else if seen.contains o.id then seen else o.id :: seen
    let labelErrs :=
      if jsBlank o.label then
        [{ code := "MISSING_OPTION_LABEL", message := "Option missing label",
           location := some loc }]
      else []
    let scoreWarns :=
      if o.scores.length = 0 then
        [{ code := "EMPTY_SCORES", message := "Option has no scores defined",
           location := some loc }]
      else []
    let restAcc := validateOptionsGo qloc (j + 1) seen' rest
    (idErrs ++ labelErrs ++ restAcc.1, scoreWarns ++ restAcc.2)

/-- The `tree.questions.forEach` body of `validateQuestions`. -/
def validateQuestionsGo : Nat → List String → List Question →
    List ValidationError × List ValidationWarning
  | _, _, [] => ([], [])
  | i, seen, q :: rest =>
    let loc := "questions[" ++ toString i ++ "]"
    let idErrs :=
      if q.id = "" then
        [{ code := "MISSING_QUESTION_ID", message := "Question missing id", location := some loc }]
      else if seen.contains q.id then
        [{ code := "DUPLICATE_QUESTION_ID", message := "Duplicate question id: " ++ q.id,
           location := some loc }]
      else []
    let seen' := if q.id = "" then seen else if seen.contains q.id then seen else q.id :: seen
    let textErrs :=
      if jsBlank q.text then
        [{ code := "MISSING_QUESTION_TEXT", message := "Question missing text",
           location := some loc }]
      else []
    let optAcc :=
      if q.options.length = 0 then
        ([{ code := "MISSING_OPTIONS", message := "Question must have at least one option",
            location := some loc }], ([] : List ValidationWarning))
      else validateOptionsGo loc 0 [] q.options
    let restAcc := validateQuestionsGo (i + 1) seen' rest
    (idErrs ++ textErrs ++ optAcc.1 ++ restAcc.1, optAcc.2 ++ restAcc.2)

/-- `DecisionTreeValidator.validateQuestions`. -/
def validateQuestions (tree : DecisionTree) :
    List ValidationError × List ValidationWarning :=
  validateQuestionsGo 0 [] tree.questions

/-- `DecisionTreeValidator.validateReferences`. -/
def validateReferences (tree : DecisionTree) : List ValidationError :=
  let questionIds := tree.questions.map (fun q => q.id)
  (tree.questions.enum.map (fun qi =>
    (qi.2.options.enum.map (fun oi =>
      let loc := "questions[" ++ toString qi.1 ++ "].options[" ++ toString oi.1 ++ "]"
      let o := oi.2
      let refErrs :=
        match o.nextQuestionId with
        | none => []
        | some nq =>
          (if questionIds.contains nq then []
           else
            [{ code := "INVALID_REFERENCE",
               message := "nextQuestionId \"" ++ nq ++ "\" does not exist",
               location := some loc }]) ++
          (if nq = qi.2.id then
            [{ code := "CIRCULAR_REFERENCE",
               message := "Option references its own question (infinite loop)",
               location := some loc }]
           else [])
      let resErrs := (o.scores.map (fun p =>
        if (resultsLookup tree.results p.1).isSome then ([] : List ValidationError)
        else
          [{ code := "MISSING_RESULT",
             message := "Score references technology \"" ++ p.1 ++ "\" but no result exists",
             location := some (loc ++ ".scores." ++ p.1) }])).flatten
      refErrs ++ resErrs)).flatten)).flatten

/-! The depth-first search of `validateReachability`.  The source's `reachable`
and `visited` sets are updated in lockstep and always equal, so a single
`visited` list stands for both.  `fuel` makes the recursion structural: every
nesting level is an expansion of an id not yet in `visited`, and only real
question ids expand further, so the call depth never exceeds
`tree.questions.length + 1`; with that much fuel the `fuel = 0` branch is
unreachable on every input. -/
mutual

def dfsGo (tree : DecisionTree) (fuel : Nat) (qid : String) (path : List String)
    (st : List String × List ValidationError) : List String × List ValidationError :=
  match fuel with
  | 0 => st
  | f + 1 =>
    if st.1.contains qid then
      if path.contains qid then
        (st.1, st.2 ++
          [{ code := "CIRCULAR_REFERENCE",
             message := "Circular reference detected: " ++
               String.intercalate " -> " (path ++ [qid]),
             location := none }])
      else st
    else
      let st1 := (qid :: st.1, st.2)
      match tree.questions.find? (fun q => q.id == qid) with
      | none => st1
      | some q => dfsOpts tree f q.options (path ++ [qid]) st1

def dfsOpts (tree : DecisionTree) (fuel : Nat) (opts : List Opt) (path : List String)
    (st : List String × List ValidationError) : List String × List ValidationError :=
  match opts with
  | [] => st
  | o :: rest =>
    let st' :=
      match o.nextQuestionId with
      | some nq => if nq = "" then st else dfsGo tree fuel nq path st
      | none => st
    dfsOpts tree fuel rest path st'

end

/-- `DecisionTreeValidator.validateReachability`: DFS from the first question,
collecting circular-reference errors and unreachable-question warnings. -/
def validateReachability (tree : DecisionTree) :
    List ValidationError × List ValidationWarning :=
  match tree.questions with
  | [] => ([], [])
  | q0 :: _ =>
    let st := dfsGo tree (tree.questions.length + 1) q0.id [] ([], [])
    let unreachableIds := (tree.questions.map (fun q => q.id)).filter
      (fun qid => !(st.1.contains qid))
    (st.2, unreachableIds.map (fun qid =>
      { code := "UNREACHABLE_QUESTION",
        message := "Question \"" ++ qid ++ "\" is not reachable from the starting question",
        location := none }))

/-- `DecisionTreeValidator.validateResults`. -/
def validateResults (tree : DecisionTree) :
    List ValidationError × List ValidationWarning :=
  match tree.results with
  | [] =>
    ([{ code := "NO_RESULTS", message := "Tree must have at least one result definition",
        location := none }], [])
  | _ :: _ =>
    let errs := (tree.results.map (fun p =>
      if p.2.name = "" then
        [{ code := "MISSING_RESULT_NAME", message := "Result missing name",
           location := some ("results." ++ p.1) }]
      else ([] : List ValidationError))).flatten
    let warns := (tree.results.map (fun p =>
      let loc := some ("results." ++ p.1)
      (if p.2.reasoning = "" then
        [{ code := "MISSING_REASONING", message := "Result missing reasoning", location := loc }]
       else []) ++
      (if p.2.tradeoffs.length = 0 then
        [{ code := "MISSING_TRADEOFFS", message := "Result missing tradeoffs", location := loc }]
       else []) ++
      (if p.2.whenToReconsider = "" then
        [{ code := "MISSING_RECONSIDER", message := "Result missing whenToReconsider",
           location := loc }]
       else ([] : List ValidationWarning)))).flatten
    (errs, warns)

/-- Models `maxScores[tech] = Math.max(maxScores[tech] || 0, score)`: an
absent key starts from `0`, an existing key is updated in place (stored
values are never negative, so the `|| 0` fallback is exact). -/
def insertMax (s : List (String × Int)) (tech : String) (score : Int) :
    List (String × Int) :=
  if s.any (fun p => p.1 == tech) then
    s.map (fun p => if p.1 == tech then (p.1, max p.2 score) else p)
  else
    s ++ [(tech, max 0 score)]

/-- Per-outcome maximum single-option score across the whole tree. -/
def maxScoresOf (tree : DecisionTree) : List (String × Int) :=
  tree.questions.foldl (fun acc q =>
    q.options.foldl (fun acc o =>
      o.scores.foldl (fun acc p => insertMax acc p.1 p.2) acc) acc) []

/-- `DecisionTreeValidator.validateScoreBalance`.  The JS test is
`|maxScores[tech] - avg| / avg > 0.5` with `avg = total / n` computed in
floating point; for `total > 0` this is the exact rational condition
`2 * |n * m - total| > total`, embedded here in exact integer arithmetic
(`n = 0` runs no iterations; `total = 0` forces every stored max to `0`,
where the JS `NaN` comparison yields no warning, matching the `0 < total`
guard).  The JS message interpolates `avg.toFixed(1)`; the embedding keeps
the identifying prefix of the message only. -/
def validateScoreBalance (tree : DecisionTree) : List ValidationWarning :=
  let maxScores := maxScoresOf tree
  let n : Int := maxScores.length
  let total : Int := (maxScores.map (fun p => p.2)).sum
  (maxScores.map (fun p =>
    if 0 < total ∧ total < 2 * (n * p.2 - total).natAbs then
      [{ code := "SCORE_IMBALANCE",
         message := "Technology \"" ++ p.1 ++ "\" has significantly different max scores",
         location := none }]
    else ([] : List ValidationWarning))).flatten

/-- `DecisionTreeValidator.validate`: basic structure first with an early
return when that stage errored; otherwise every remaining stage runs and the
stages' errors and warnings are concatenated in push order.  `isValid`
depends on the errors array only. -/
def validate (tree : DecisionTree) : ValidationResult :=
  let basicErrors := validateBasicStructure tree
  if basicErrors.length > 0 then
    { isValid := false, errors := basicErrors, warnings := [] }
  else
    let qAcc := validateQuestions tree
    let refErrs := validateReferences tree
    let reachAcc := validateReachability tree
    let resAcc := validateResults tree
    let balWarns := validateScoreBalance tree
    let errors := basicErrors ++ qAcc.1 ++ refErrs ++ reachAcc.1 ++ resAcc.1
    let warnings := qAcc.2 ++ reachAcc.2 ++ resAcc.2 ++ balWarns
    { isValid := errors.isEmpty, errors := errors, warnings := warnings }

/-! Specification-level definitions.  These follow the wording of the spec
and of the claims (legal walks, per-key score sums, the second-highest
competing score) and are compared against the embedded source functions in
the theorems below. -/

/-- A legal linear walk from the question `e` to a terminal option: each
answer in order names the expected question and an existing option of it,
the final option is terminal, and there are no trailing answers. -/
def isWalkFrom (tree : DecisionTree) : String → List Answer → Bool
  | _, [] => false
  | e, a :: rest =>
    a.questionId == e &&
    (match questionLookup tree.questions a.questionId with
     | none => false
     | some q =>
       match findOption q a.optionId with
       | none => false
       | some o =>
         match o.nextQuestionId, rest with
         | none, [] => true
         | none, _ :: _ => false
         | some nq, _ => isWalkFrom tree nq rest)

/-- A legal single linear walk from the tree's entry question to a terminal
option. -/
def isWalk (tree : DecisionTree) (answers : List Answer) : Bool :=
  match initialExpected tree with
  | none => false
  | some e => isWalkFrom tree e answers

/-- A walk in which each answer in order names the expected question and an
existing option of it, but every selected option is non-terminal, so the
list ends while an expected question is still pending. -/
def isNonTerminalWalkFrom (tree : DecisionTree) : String → List Answer → Bool
  | _, [] => true
  | e, a :: rest =>
    a.questionId == e &&
    (match questionLookup tree.questions a.questionId with
     | none => false
     | some q =>
       match findOption q a.optionId with
       | none => false
       | some o =>
         match o.nextQuestionId with
         | none => false
         | some nq => isNonTerminalWalkFrom tree nq rest)

/-- As `isNonTerminalWalkFrom`, starting at the tree's entry question. -/
def isNonTerminalWalk (tree : DecisionTree) (answers : List Answer) : Bool :=
  match initialExpected tree with
  | none => false
  | some e => isNonTerminalWalkFrom tree e answers

/-- The options selected by the answers, in order, skipping answers that do
not resolve to an existing question/option pair. -/
def specSelectedOptions (tree : DecisionTree) (answers : List Answer) : List Opt :=
  answers.filterMap (resolveAnswer tree)

/-- Whether any selected option mentions the outcome key `k` in its score
mapping. -/
def specMentions (tree : DecisionTree) (answers : List Answer) (k : String) : Bool :=
  (specSelectedOptions tree answers).any (fun o => o.scores.any (fun p => p.1 == k))

/-- The spec's score for outcome key `k`: the sum, over the selected options,
of that key's point contributions. -/
def specScoreSum (tree : DecisionTree) (answers : List Answer) (k : String) : Int :=
  ((specSelectedOptions tree answers).map
    (fun o => ((o.scores.filter (fun p => p.1 == k)).map (fun p => p.2)).sum)).sum

/-- Second-highest competing score as the code computes it, in the spec's
set-based wording with the clamping made explicit: the maximum over the
score values that are either not the winner's score, or equal to it when at
least two entries hold that value — taken together with `0`, so the result
is never negative (`Math.max(...otherScores, 0)`). -/
def specSecondHighest (scores : List (String × Int)) (winner : String) : Int :=
  let values := scores.map (fun p => p.2)
  let winnerScore := lookupD scores winner
  let eligible := values.filter
    (fun v => decide (v ≠ winnerScore ∨ 2 ≤ (values.filter (fun sv => sv == winnerScore)).length))
  max 0 (maxIntList eligible)

/-- Second-highest competing score as claim C2 words it: the maximum of the
same eligible set, defaulting to `0` only when that set is empty and not
otherwise clamped (so a sole negative competitor yields a negative value).
This is the reading the code refutes. -/
def claimSecondHighest (scores : List (String × Int)) (winner : String) : Int :=
  let values := scores.map (fun p => p.2)
  let winnerScore := lookupD scores winner
  let eligible := values.filter
    (fun v => decide (v ≠ winnerScore ∨ 2 ≤ (values.filter (fun sv => sv == winnerScore)).length))
  match eligible with
  | [] => 0
  | _ :: _ => maxIntList eligible

/-! Concrete fixtures, used by the closed witness and counterexample
theorems below.  `mockTree` is the tree of
`src/backend/tests/services/RecommendationEngine.test.ts`. -/

/-- A fully populated outcome descriptor. -/
def resFull (nm : String) : Result :=
  { name := nm, reasoning := "r", tradeoffs := ["t"], whenToReconsider := "w", bestFor := "b" }

/-- The two-question tree used by the repository's own engine tests. -/
def mockTree : DecisionTree :=
  { id := "test-tree", title := "Test Tree", description := "Test description",
    version := "1.0.0",
    questions :=
      [{ id := "q1", text := "Question 1?",
         options :=
           [{ id := "opt1", label := "Option 1", nextQuestionId := some "q2",
              scores := [("tech1", 3), ("tech2", 1)] },
            { id := "opt2", label := "Option 2", nextQuestionId := none,
              scores := [("tech1", 1), ("tech2", 3)] }] },
       { id := "q2", text := "Question 2?",
         options :=
           [{ id := "opt3", label := "Option 3", nextQuestionId := none,
              scores := [("tech1", 2), ("tech2", 1)] }] }],
    results := [("tech1", resFull "Technology 1"), ("tech2", resFull "Technology 2")] }

/-- One-question tree whose only (terminal) option scores the key `"x"`,
while `results` holds a descriptor only for `"y"`: the winner `"x"` has no
descriptor. -/
def tC9 : DecisionTree :=
  { id := "t9", title := "T9", description := "", version := "1",
    questions :=
      [{ id := "q1", text := "Q",
         options := [{ id := "o1", label := "L", nextQuestionId := none,
                       scores := [("x", 1)] }] }],
    results := [("y", resFull "Y")] }

/-- One-question tree whose only (terminal) option has an empty score
mapping: a legal walk that scores nothing. -/
def tEmptyScores : DecisionTree :=
  { id := "te", title := "TE", description := "", version := "1",
    questions :=
      [{ id := "q1", text := "Q",
         options := [{ id := "o1", label := "L", nextQuestionId := none, scores := [] }] }],
    results := [("a", resFull "A")] }

/-- Tree with an empty title (a basic-structure error) and a duplicated
question id (a question-stage error): the validator reports only the first. -/
def tNoTitle : DecisionTree :=
  { id := "t5", title := "", description := "", version := "1",
    questions :=
      [{ id := "q1", text := "Q",
         options := [{ id := "o1", label := "L", nextQuestionId := none,
                       scores := [("a", 1)] }] },
       { id := "q1", text := "Q2",
         options := [{ id := "o2", label := "L2", nextQuestionId := none,
                       scores := [("a", 2)] }] }],
    results := [("a", resFull "A")] }

/-- Tree whose outcome keys `"a"` and `"b"` both have descriptors, for the
tie-break witness. -/
def tAB : DecisionTree :=
  { id := "tab", title := "TAB", description := "", version := "1",
    questions :=
      [{ id := "q1", text := "Q",
         options := [{ id := "o1", label := "L", nextQuestionId := none,
                       scores := [("a", 5), ("b", 5)] }] }],
    results := [("a", resFull "A"), ("b", resFull "B")] }

/-- The `RecommendationResult` that `calculate` returns on `mockTree` with
the valid full path `[(q1,opt1), (q2,opt3)]`. -/
def rMock : RecommendationResult :=
  { recommendation := "tech1", scores := [("tech1", 5), ("tech2", 2)],
    result := resFull "Technology 1",
    answers := [{ questionId := "q1", optionId := "opt1" },
                { questionId := "q2", optionId := "opt3" }],
    tieBreaker := none, confidence := .medium }

/-! Generic helper lemmas about `headD`, `foldl max` and `maxIntList`. -/

theorem headD_mem {α : Type} {l : List α} (h : l ≠ []) (d : α) : l.headD d ∈ l := by
  cases l with
  | nil => exact absurd rfl h
  | cons a t => simp

theorem foldl_max_init_le : ∀ (l : List Int) (a : Int), a ≤ l.foldl max a := by
  intro l
  induction l with
  | nil => intro a; simp
  | cons x xs ih =>
    intro a
    simp only [List.foldl_cons]
    exact le_trans (le_max_left a x) (ih (max a x))

theorem foldl_max_le_of_mem : ∀ {l : List Int} {x : Int}, x ∈ l → ∀ a : Int, x ≤ l.foldl max a := by
  intro l
  induction l with
  | nil => intro x h; cases h
  | cons y ys ih =>
    intro x h a
    simp only [List.foldl_cons]
    rcases List.mem_cons.mp h with rfl | h'
    · exact le_trans (le_max_right a x) (foldl_max_init_le ys (max a x))
    · exact ih h' (max a y)

theorem foldl_max_eq_or_mem : ∀ (l : List Int) (a : Int), l.foldl max a = a ∨ l.foldl max a ∈ l := by
  intro l
  induction l with
  | nil => intro a; left; rfl
  | cons x xs ih =>
    intro a
    simp only [List.foldl_cons]
    rcases ih (max a x) with h | h
    · rw [h]
      rcases max_choice a x with h' | h'
      · left; exact h'
      · right; rw [h']; exact List.mem_cons_self x xs
    · right; exact List.mem_cons_of_mem x h

theorem maxIntList_mem {l : List Int} (h : l ≠ []) : maxIntList l ∈ l := by
  cases l with
  | nil => exact absurd rfl h
  | cons v vs =>
    show vs.foldl max v ∈ v :: vs
    rcases foldl_max_eq_or_mem vs v with h' | h'
    · rw [h']; exact List.mem_cons_self v vs
    · exact List.mem_cons_of_mem v h'

theorem le_maxIntList {l : List Int} {x : Int} (h : x ∈ l) : x ≤ maxIntList l := by
  cases l with
  | nil => cases h
  | cons v vs =>
    show x ≤ vs.foldl max v
    rcases List.mem_cons.mp h with rfl | h'
    · exact foldl_max_init_le vs x
    · exact foldl_max_le_of_mem h' v

theorem foldl_max_shift : ∀ (l : List Int) (a b : Int), l.foldl max (max a b) = max a (l.foldl max b) := by
  intro l
  induction l with
  | nil => intro a b; rfl
  | cons x xs ih =>
    intro a b
    simp only [List.foldl_cons]
    rw [max_assoc]
    exact ih a (max b x)

theorem foldl_max_zero (l : List Int) : l.foldl max 0 = max 0 (maxIntList l) := by
  cases l with
  | nil => simp [maxIntList]
  | cons v vs =>
    show vs.foldl max (max 0 v) = max 0 (vs.foldl max v)
    exact foldl_max_shift vs 0 v

/-! Lookup lemmas for the association lists built by the engine. -/

theorem lookup?_cons (p : String × Int) (s : List (String × Int)) (k : String) :
    lookup? (p :: s) k = if p.1 = k then some p.2 else lookup? s k := by
  by_cases h : p.1 = k <;> simp [lookup?, List.find?_cons, h]

theorem lookupD_cons (p : String × Int) (s : List (String × Int)) (k : String) :
    lookupD (p :: s) k = if p.1 = k then p.2 else lookupD s k := by
  by_cases h : p.1 = k <;> simp [lookupD, lookup?_cons, h]

theorem lookup?_isSome_iff {s : List (String × Int)} {k : String} :
    (lookup? s k).isSome = true ↔ k ∈ s.map (fun p => p.1) := by
  induction s with
  | nil => simp [lookup?]
  | cons p t ih =>
    by_cases hp : p.1 = k
    · simp [lookup?_cons, hp, ih, eq_comm]
    · rw [lookup?_cons, if_neg hp, ih]
      simp only [List.map_cons, List.mem_cons]
      constructor
      · intro h; exact Or.inr h
      · rintro (he | h)
        · exact absurd he.symm hp
        · exact h

theorem lookup?_eq_some_lookupD {s : List (String × Int)} {k : String}
    (h : k ∈ s.map (fun p => p.1)) : lookup? s k = some (lookupD s k) := by
  have h' : (lookup? s k).isSome = true := lookup?_isSome_iff.mpr h
  obtain ⟨v, hv⟩ := Option.isSome_iff_exists.mp h'
  simp [lookupD, hv]

theorem mem_values_of_lookup? {s : List (String × Int)} {k : String} {v : Int}
    (h : lookup? s k = some v) : v ∈ s.map (fun p => p.2) := by
  induction s with
  | nil => simp [lookup?] at h
  | cons p t ih =>
    rw [lookup?_cons] at h
    by_cases hp : p.1 = k
    · rw [if_pos hp] at h
      have : p.2 = v := by injection h
      rw [← this]
      simp
    · rw [if_neg hp] at h
      exact List.mem_cons_of_mem _ (ih h)

theorem lookup?_of_mem_nodup {s : List (String × Int)}
    (hn : (s.map (fun p => p.1)).Nodup) {p : String × Int} (hp : p ∈ s) :
    lookup? s p.1 = some p.2 := by
  induction s with
  | nil => cases hp
  | cons q t ih =>
    rw [List.map_cons, List.nodup_cons] at hn
    rcases List.mem_cons.mp hp with rfl | hp'
    · simp [lookup?_cons]
    · have hq : q.1 ≠ p.1 := by
        intro he
        exact hn.1 (he ▸ List.mem_map_of_mem (fun r => r.1) hp')
      rw [lookup?_cons, if_neg hq]
      exact ih hn.2 hp'

theorem lookup?_append_of_none {s : List (String × Int)} {k : String}
    (h : lookup? s k = none) (r : List (String × Int)) :
    lookup? (s ++ r) k = lookup? r k := by
  induction s with
  | nil => simp
  | cons p t ih =>
    rw [lookup?_cons] at h
    by_cases hp : p.1 = k
    · rw [if_pos hp] at h; cases h
    · rw [if_neg hp] at h
      rw [List.cons_append, lookup?_cons, if_neg hp]
      exact ih h

theorem lookup?_append_of_some {s : List (String × Int)} {k : String} {v : Int}
    (h : lookup? s k = some v) (r : List (String × Int)) :
    lookup? (s ++ r) k = some v := by
  induction s with
  | nil => simp [lookup?] at h
  | cons p t ih =>
    rw [lookup?_cons] at h
    by_cases hp : p.1 = k
    · rw [if_pos hp] at h
      rw [List.cons_append, lookup?_cons, if_pos hp]
      exact h
    · rw [if_neg hp] at h
      rw [List.cons_append, lookup?_cons, if_neg hp]
      exact ih h

/-! Lemmas about `insertAdd` and the score-accumulation folds. -/

theorem any_key_iff (s : List (String × Int)) (t : String) :
    s.any (fun q => q.1 == t) = true ↔ (lookup? s t).isSome = true := by
  induction s with
  | nil => simp [lookup?]
  | cons p r ih =>
    by_cases hp : p.1 = t <;> simp [lookup?_cons, hp, ih]

theorem lookup?_map_update (t : String) (pt : Int) :
    ∀ (s : List (String × Int)) (k : String),
      lookup? (s.map (fun q => if q.1 == t then (q.1, q.2 + pt) else q)) k =
        if k = t then (lookup? s t).map (fun v => v + pt) else lookup? s k := by
  intro s
  induction s with
  | nil =>
    intro k
    by_cases hk : k = t <;> simp [lookup?, hk]
  | cons q r ih =>
    intro k
    rw [List.map_cons]
    have hfst : (if q.1 == t then (q.1, q.2 + pt) else q).1 = q.1 := by
      by_cases h : q.1 = t <;> simp [h]
    rw [lookup?_cons, hfst]
    by_cases hqk : q.1 = k
    · rw [if_pos hqk]
      by_cases hkt : k = t
      · have hqt : q.1 = t := hqk.trans hkt
        rw [if_pos hkt, lookup?_cons, if_pos hqt]
        simp [hqt]
      · have hqt : ¬ q.1 = t := fun h => hkt (hqk.symm.trans h)
        rw [if_neg hkt, lookup?_cons, if_pos hqk]
        simp [hqt]
    · rw [if_neg hqk, ih k]
      by_cases hkt : k = t
      · rw [if_pos hkt, if_pos hkt]
        have hqt : ¬ q.1 = t := fun h => hqk (h.trans hkt.symm)
        rw [lookup?_cons, if_neg hqt]
      · rw [if_neg hkt, if_neg hkt, lookup?_cons, if_neg hqk]

theorem lookup?_insertAdd (s : List (String × Int)) (t : String) (pt : Int) (k : String) :
    lookup? (insertAdd s t pt) k = if k = t then some (lookupD s k + pt) else lookup? s k := by
  by_cases hany : s.any (fun p => p.1 == t) = true
  · rw [insertAdd, if_pos hany, lookup?_map_update]
    have hs : (lookup? s t).isSome = true := (any_key_iff s t).mp hany
    obtain ⟨v, hv⟩ := Option.isSome_iff_exists.mp hs
    by_cases hk : k = t
    · subst hk; simp [hv, lookupD]
    · simp [hk]
  · rw [insertAdd, if_neg hany]
    have hnone : lookup? s t = none := by
      cases ho : lookup? s t with
      | none => rfl
      | some v => exact absurd ((any_key_iff s t).mpr (by simp [ho])) hany
    by_cases hk : k = t
    · subst hk
      rw [lookup?_append_of_none hnone, if_pos rfl]
      simp [lookup?_cons, lookupD, hnone]
    · cases ho : lookup? s k with
      | some v => rw [lookup?_append_of_some ho, if_neg hk]
      | none =>
        rw [lookup?_append_of_none ho, if_neg hk, lookup?_cons]
        have hne : ¬ t = k := fun he => hk he.symm
        simp [lookup?, hne]

theorem keys_insertAdd (s : List (String × Int)) (t : String) (pt : Int) :
    (insertAdd s t pt).map (fun q => q.1) =
      if (lookup? s t).isSome = true then s.map (fun q => q.1)
      else s.map (fun q => q.1) ++ [t] := by
  rw [insertAdd]
  by_cases hany : s.any (fun q => q.1 == t) = true
  · rw [if_pos hany, if_pos ((any_key_iff s t).mp hany), List.map_map]
    apply List.map_congr_left
    intro q _
    by_cases hq : q.1 = t <;> simp [hq]
  · have hns : ¬ (lookup? s t).isSome = true := fun h => hany ((any_key_iff s t).mpr h)
    rw [if_neg hany, if_neg hns, List.map_append]
    rfl

theorem keys_nodup_insertAdd {s : List (String × Int)}
    (hn : (s.map (fun q => q.1)).Nodup) (t : String) (pt : Int) :
    ((insertAdd s t pt).map (fun q => q.1)).Nodup := by
  rw [keys_insertAdd]
  by_cases h : (lookup? s t).isSome = true
  · rw [if_pos h]; exact hn
  · rw [if_neg h]
    refine hn.append (List.nodup_singleton t) ?_
    intro a ha hat
    rw [List.mem_singleton] at hat
    subst hat
    exact h (lookup?_isSome_iff.mpr ha)

theorem lookupD_scoreEntries :
    ∀ (entries s : List (String × Int)) (k : String),
      lookupD (scoreEntries entries s) k =
        lookupD s k + ((entries.filter (fun p => p.1 == k)).map (fun p => p.2)).sum := by
  intro entries
  induction entries with
  | nil => intro s k; simp [scoreEntries]
  | cons e es ih =>
    intro s k
    show lookupD (scoreEntries es (insertAdd s e.1 e.2)) k = _
    rw [ih]
    have h1 : lookupD (insertAdd s e.1 e.2) k =
        if k = e.1 then lookupD s k + e.2 else lookupD s k := by
      rw [lookupD, lookup?_insertAdd]
      by_cases h : k = e.1 <;> simp [h, lookupD]
    rw [h1]
    by_cases hk : k = e.1
    · subst hk
      rw [if_pos rfl, List.filter_cons_of_pos (by simp)]
      simp only [List.map_cons, List.sum_cons]
      omega
    · have hne : ¬ e.1 = k := fun he => hk he.symm
      rw [if_neg hk, List.filter_cons_of_neg (by simpa using hne)]

theorem isSome_scoreEntries :
    ∀ (entries s : List (String × Int)) (k : String),
      (lookup? (scoreEntries entries s) k).isSome =
        ((lookup? s k).isSome || entries.any (fun p => p.1 == k)) := by
  intro entries
  induction entries with
  | nil => intro s k; simp [scoreEntries]
  | cons e es ih =>
    intro s k
    show (lookup? (scoreEntries es (insertAdd s e.1 e.2)) k).isSome = _
    rw [ih]
    have h1 : (lookup? (insertAdd s e.1 e.2) k).isSome =
        ((k == e.1) || (lookup? s k).isSome) := by
      rw [lookup?_insertAdd]
      by_cases h : k = e.1 <;> simp [h]
    rw [h1, List.any_cons]
    by_cases h : k = e.1
    · simp [h]
    · have hne : e.1 ≠ k := fun he => h he.symm
      have h1' : (k == e.1) = false := beq_eq_false_iff_ne.mpr h
      have h2' : (e.1 == k) = false := beq_eq_false_iff_ne.mpr hne
      rw [h1', h2']
      simp

theorem keys_nodup_scoreEntries :
    ∀ (entries : List (String × Int)) {s : List (String × Int)},
      (s.map (fun q => q.1)).Nodup → ((scoreEntries entries s).map (fun q => q.1)).Nodup := by
  intro entries
  induction entries with
  | nil => intro s h; exact h
  | cons e es ih =>
    intro s h
    show ((scoreEntries es (insertAdd s e.1 e.2)).map (fun q => q.1)).Nodup
    exact ih (keys_nodup_insertAdd h e.1 e.2)

theorem lookupD_foldScores (tree : DecisionTree) :
    ∀ (answers : List Answer) (s : List (String × Int)) (k : String),
      lookupD (answers.foldl (scoreAnswer tree) s) k =
        lookupD s k + specScoreSum tree answers k := by
  intro answers
  induction answers with
  | nil => intro s k; simp [specScoreSum, specSelectedOptions]
  | cons a as ih =>
    intro s k
    simp only [List.foldl_cons]
    rw [ih]
    cases hr : resolveAnswer tree a with
    | none =>
      simp [scoreAnswer, hr, specScoreSum, specSelectedOptions, List.filterMap_cons]
    | some o =>
      simp only [scoreAnswer, hr]
      rw [lookupD_scoreEntries]
      simp only [specScoreSum, specSelectedOptions, List.filterMap_cons, hr,
        List.map_cons, List.sum_cons]
      omega

theorem isSome_foldScores (tree : DecisionTree) :
    ∀ (answers : List Answer) (s : List (String × Int)) (k : String),
      (lookup? (answers.foldl (scoreAnswer tree) s) k).isSome =
        ((lookup? s k).isSome || specMentions tree answers k) := by
  intro answers
  induction answers with
  | nil => intro s k; simp [specMentions, specSelectedOptions]
  | cons a as ih =>
    intro s k
    simp only [List.foldl_cons]
    rw [ih]
    cases hr : resolveAnswer tree a with
    | none =>
      simp [scoreAnswer, hr, specMentions, specSelectedOptions, List.filterMap_cons]
    | some o =>
      simp only [scoreAnswer, hr]
      rw [isSome_scoreEntries]
      simp only [specMentions, specSelectedOptions, List.filterMap_cons, hr, List.any_cons]
      rw [Bool.or_assoc]

theorem calculateScores_nodupKeys (tree : DecisionTree) (answers : List Answer) :
    ((calculateScores tree answers).map (fun q => q.1)).Nodup := by
  have main : ∀ (ans : List Answer) (s : List (String × Int)),
      (s.map (fun q => q.1)).Nodup →
      ((ans.foldl (scoreAnswer tree) s).map (fun q => q.1)).Nodup := by
    intro ans
    induction ans with
    | nil => intro s h; exact h
    | cons a as ih =>
      intro s h
      simp only [List.foldl_cons]
      apply ih
      cases hr : resolveAnswer tree a with
      | none => simpa [scoreAnswer, hr]
      | some o =>
        simp only [scoreAnswer, hr]
        exact keys_nodup_scoreEntries o.scores h
  exact main answers [] (by simp)

/-- The scoring bridge: `calculateScores` agrees everywhere with the spec's
per-key sums — present exactly for the mentioned keys, absent otherwise. -/
theorem lookup?_calculateScores (tree : DecisionTree) (answers : List Answer) (k : String) :
    lookup? (calculateScores tree answers) k =
      if specMentions tree answers k then some (specScoreSum tree answers k) else none := by
  have hD := lookupD_foldScores tree answers [] k
  have hS := isSome_foldScores tree answers [] k
  rw [show (lookup? ([] : List (String × Int)) k) = none from rfl] at hS
  rw [show lookupD ([] : List (String × Int)) k = 0 from rfl, zero_add] at hD
  simp only [Option.isSome_none, Bool.false_or] at hS
  rw [show calculateScores tree answers = answers.foldl (scoreAnswer tree) [] from rfl]
  cases ho : lookup? (answers.foldl (scoreAnswer tree) []) k with
  | none =>
    rw [ho] at hS
    simp only [Option.isSome_none] at hS
    rw [← hS]
    rfl
  | some v =>
    rw [ho] at hS
    simp only [Option.isSome_some] at hS
    rw [← hS, if_pos rfl]
    have hv : v = specScoreSum tree answers k := by
      rw [← hD]
      simp [lookupD, ho]
    rw [hv]

/-! Lemmas about the answer-path walk. -/

theorem walkPath_ok_append (tree : DecisionTree) :
    ∀ (pre : List Answer) (e : String) (i : Nat) (trailing : List Answer),
      isWalkFrom tree e pre = true →
      walkPath tree (some e) i (pre ++ trailing) = .ok () := by
  intro pre
  induction pre with
  | nil => intro e i tr h; simp [isWalkFrom] at h
  | cons a rest ih =>
    intro e i tr h
    simp only [isWalkFrom, Bool.and_eq_true, beq_iff_eq] at h
    obtain ⟨hqe, h2⟩ := h
    rw [List.cons_append]
    simp only [walkPath]
    rw [if_neg (by simp [hqe])]
    cases hql : questionLookup tree.questions a.questionId with
    | none => simp [hql] at h2
    | some q =>
      simp only [hql] at h2
      cases hfo : findOption q a.optionId with
      | none => simp [hfo] at h2
      | some o =>
        simp only [hfo] at h2
        cases hnx : o.nextQuestionId with
        | none => simp [hql, hfo, hnx]
        | some nq =>
          simp only [hnx] at h2
          simp only [hql, hfo, hnx]
          exact ih nq (i + 1) tr h2

theorem validateAnswerPath_ok_of_walk (tree : DecisionTree) {pre : List Answer}
    (trailing : List Answer) (h : isWalk tree pre = true) :
    validateAnswerPath tree (pre ++ trailing) = .ok () := by
  unfold isWalk at h
  cases hi : initialExpected tree with
  | none => rw [hi] at h; cases h
  | some e =>
    rw [hi] at h
    cases pre with
    | nil => simp [isWalkFrom] at h
    | cons a rest =>
      rw [List.cons_append]
      show walkPath tree (initialExpected tree) 0 (a :: (rest ++ trailing)) = .ok ()
      rw [hi]
      have hw := walkPath_ok_append tree (a :: rest) e 0 trailing h
      rw [List.cons_append] at hw
      exact hw

theorem walkPath_incomplete (tree : DecisionTree) :
    ∀ (answers : List Answer) (e : String) (i : Nat),
      isNonTerminalWalkFrom tree e answers = true →
      walkPath tree (some e) i answers =
        .error (.typed .INVALID_ANSWER_PATH "Answer path did not reach a valid end node") := by
  intro answers
  induction answers with
  | nil => intro e i _; rfl
  | cons a rest ih =>
    intro e i h
    simp only [isNonTerminalWalkFrom, Bool.and_eq_true, beq_iff_eq] at h
    obtain ⟨hqe, h2⟩ := h
    simp only [walkPath]
    rw [if_neg (by simp [hqe])]
    cases hql : questionLookup tree.questions a.questionId with
    | none => simp [hql] at h2
    | some q =>
      simp only [hql] at h2
      cases hfo : findOption q a.optionId with
      | none => simp [hfo] at h2
      | some o =>
        simp only [hfo] at h2
        cases hnx : o.nextQuestionId with
        | none => simp [hnx] at h2
        | some nq =>
          simp only [hnx] at h2
          simp only [hql, hfo, hnx]
          exact ih nq (i + 1) h2

/-! Lemmas about winner determination and tie-breaking. -/

theorem mem_winnersOf {s : List (String × Int)} {w : String} (h : w ∈ winnersOf s) :
    w ∈ s.map (fun p => p.1) ∧ lookupD s w = maxIntList (s.map (fun p => p.2)) := by
  have h' := List.mem_filter.mp h
  exact ⟨h'.1, by simpa using h'.2⟩

theorem winnersOf_mem_of {s : List (String × Int)}
    (hn : (s.map (fun p => p.1)).Nodup) {p : String × Int} (hp : p ∈ s)
    (hmax : p.2 = maxIntList (s.map (fun q => q.2))) : p.1 ∈ winnersOf s := by
  apply List.mem_filter.mpr
  refine ⟨List.mem_map_of_mem _ hp, ?_⟩
  have hl := lookup?_of_mem_nodup hn hp
  simp [lookupD, hl, hmax]

theorem winnersOf_ne_nil {s : List (String × Int)}
    (hn : (s.map (fun p => p.1)).Nodup) (hs : s ≠ []) : winnersOf s ≠ [] := by
  have hv : s.map (fun p => p.2) ≠ [] := by
    intro he
    exact hs (List.map_eq_nil_iff.mp he)
  obtain ⟨p, hp, hpv⟩ := List.mem_map.mp (maxIntList_mem hv)
  exact List.ne_nil_of_mem (winnersOf_mem_of hn hp hpv)

theorem determineWinner_isOk {s : List (String × Int)} (tree : DecisionTree) (hs : s ≠ []) :
    ∃ w tb, determineWinner s tree = .ok (w, tb) := by
  have hlen : ¬ (s.map (fun p => p.1)).length = 0 := by simpa using hs
  unfold determineWinner
  rw [if_neg hlen]
  by_cases h1 : (winnersOf s).length = 1
  · rw [if_pos h1]; exact ⟨_, _, rfl⟩
  · rw [if_neg h1]; exact ⟨_, _, rfl⟩

theorem breakTie_fst_mem {tied : List String} (s : List (String × Int)) (tree : DecisionTree)
    (hne : tied ≠ []) : (breakTie tied s tree).1 ∈ tied := by
  unfold breakTie
  by_cases h2 : (tied.filter (fun t => (resultsLookup tree.results t).isSome)).length = 1
  · rw [if_pos h2]
    have hwr : tied.filter (fun t => (resultsLookup tree.results t).isSome) ≠ [] := by
      intro he
      rw [he] at h2
      cases h2
    exact List.mem_of_mem_filter (headD_mem hwr "")
  · rw [if_neg h2]
    have hperm := List.mergeSort_perm tied (fun a b => a ≤ b)
    have hms : tied.mergeSort (fun a b => a ≤ b) ≠ [] := by
      intro he
      exact hne (List.Perm.nil_eq (he ▸ hperm)).symm
    exact hperm.subset (headD_mem hms "")

theorem determineWinner_mem {s : List (String × Int)} {tree : DecisionTree}
    {w : String} {tb : Option String}
    (hn : (s.map (fun p => p.1)).Nodup)
    (h : determineWinner s tree = .ok (w, tb)) : w ∈ winnersOf s := by
  by_cases hlen : (s.map (fun p => p.1)).length = 0
  · unfold determineWinner at h
    rw [if_pos hlen] at h
    cases h
  · have hs : s ≠ [] := by
      intro he
      rw [he] at hlen
      exact hlen rfl
    unfold determineWinner at h
    rw [if_neg hlen] at h
    by_cases h1 : (winnersOf s).length = 1
    · rw [if_pos h1] at h
      have hw : w = (winnersOf s).headD "" := by cases h; rfl
      have hne : winnersOf s ≠ [] := by
        intro he
        rw [he] at h1
        cases h1
      rw [hw]
      exact headD_mem hne ""
    · rw [if_neg h1] at h
      have hw : w = (breakTie (winnersOf s) s tree).1 := by cases h; rfl
      rw [hw]
      exact breakTie_fst_mem s tree (winnersOf_ne_nil hn hs)

theorem mergeSort_headD_min (l : List String) (h : l ≠ []) :
    ((l.mergeSort (fun a b => a ≤ b)).headD "") ∈ l ∧
      ∀ x ∈ l, ((l.mergeSort (fun a b => a ≤ b)).headD "") ≤ x := by
  have hperm := List.mergeSort_perm l (fun a b => a ≤ b)
  have hsorted : (l.mergeSort (fun a b => a ≤ b)).Sorted (· ≤ ·) := List.sorted_mergeSort' l
  cases hm : l.mergeSort (fun a b => a ≤ b) with
  | nil => exact absurd (List.Perm.nil_eq (hm ▸ hperm)).symm h
  | cons w rest =>
    rw [hm] at hperm hsorted
    constructor
    · exact hperm.subset (List.mem_cons_self w rest)
    · intro x hx
      rcases List.mem_cons.mp (hperm.symm.subset hx) with rfl | hx'
      · exact le_refl x
      · exact (List.sorted_cons.mp hsorted).1 x hx'

theorem exists_two_of_nodup {l : List String} (hn : l.Nodup) (h2 : 2 ≤ l.length) :
    ∃ t1 t2, t1 ∈ l ∧ t2 ∈ l ∧ t1 ≠ t2 := by
  cases l with
  | nil => simp at h2
  | cons a t =>
    cases t with
    | nil => simp at h2
    | cons b r =>
      refine ⟨a, b, by simp, by simp, ?_⟩
      intro he
      exact (List.nodup_cons.mp hn).1 (he ▸ List.mem_cons_self b r)

theorem two_values_of_two_keys {s : List (String × Int)} {t1 t2 : String} {m : Int}
    (hne : t1 ≠ t2) (h1 : lookup? s t1 = some m) (h2 : lookup? s t2 = some m) :
    2 ≤ ((s.map (fun p => p.2)).filter (fun v => v == m)).length := by
  induction s with
  | nil => simp [lookup?] at h1
  | cons q r ih =>
    rw [lookup?_cons] at h1 h2
    by_cases hq1 : q.1 = t1
    · rw [if_pos hq1] at h1
      have hqv : q.2 = m := by injection h1
      have hq2 : ¬ q.1 = t2 := by rw [hq1]; exact hne
      rw [if_neg hq2] at h2
      have hmem : m ∈ r.map (fun p => p.2) := mem_values_of_lookup? h2
      have hpos : 0 < ((r.map (fun p => p.2)).filter (fun v => v == m)).length := by
        have : m ∈ (r.map (fun p => p.2)).filter (fun v => v == m) :=
          List.mem_filter.mpr ⟨hmem, by simp⟩
        exact List.length_pos.mpr (List.ne_nil_of_mem this)
      rw [List.map_cons, List.filter_cons_of_pos (by simp [hqv])]
      simp only [List.length_cons]
      omega
    · rw [if_neg hq1] at h1
      by_cases hq2 : q.1 = t2
      · rw [if_pos hq2] at h2
        have hqv : q.2 = m := by injection h2
        have hmem : m ∈ r.map (fun p => p.2) := mem_values_of_lookup? h1
        have hpos : 0 < ((r.map (fun p => p.2)).filter (fun v => v == m)).length := by
          have : m ∈ (r.map (fun p => p.2)).filter (fun v => v == m) :=
            List.mem_filter.mpr ⟨hmem, by simp⟩
          exact List.length_pos.mpr (List.ne_nil_of_mem this)
        rw [List.map_cons, List.filter_cons_of_pos (by simp [hqv])]
        simp only [List.length_cons]
        omega
      · rw [if_neg hq2] at h2
        have := ih h1 h2
        rw [List.map_cons, List.filter_cons]
        by_cases hv : q.2 = m <;> simp [hv] <;> omega

/-- With at least two tied keys at the top, the filter in
`calculateConfidence` keeps every value, so the second highest is at least
the winner's own score and the difference is never ≥ 2. -/
theorem confidence_low_of_tie {s : List (String × Int)} {w : String}
    (hw : w ∈ winnersOf s)
    (hcount : 2 ≤ ((s.map (fun p => p.2)).filter (fun sv => sv == lookupD s w)).length) :
    calculateConfidence s w = .low := by
  obtain ⟨hmem, _⟩ := mem_winnersOf hw
  have hws : lookupD s w ∈ s.map (fun p => p.2) := by
    have := lookup?_eq_some_lookupD hmem
    exact mem_values_of_lookup? this
  simp only [calculateConfidence]
  have hfil : (s.map (fun p => p.2)).filter
      (fun v => v != lookupD s w ||
        ((s.map (fun p => p.2)).filter (fun sv => sv == lookupD s w)).length > 1) =
      s.map (fun p => p.2) := by
    apply List.filter_eq_self.mpr
    intro v _
    have : ((s.map (fun p => p.2)).filter (fun sv => sv == lookupD s w)).length > 1 := by omega
    simp [this]
  rw [hfil]
  have hge : lookupD s w ≤ (s.map (fun p => p.2)).foldl max 0 := foldl_max_le_of_mem hws 0
  rw [if_neg (by omega), if_neg (by omega)]

/-- The second-highest score computed by `calculateConfidence` equals the
set-based, clamped description `specSecondHighest`. -/
theorem secondHighest_code_eq (scores : List (String × Int)) (winner : String) :
    ((scores.map (fun p => p.2)).filter
        (fun v => v != lookupD scores winner ||
          ((scores.map (fun p => p.2)).filter
            (fun sv => sv == lookupD scores winner)).length > 1)).foldl max 0
      = specSecondHighest scores winner := by
  have hpred : ∀ v ∈ scores.map (fun p => p.2),
      (v != lookupD scores winner ||
        ((scores.map (fun p => p.2)).filter
          (fun sv => sv == lookupD scores winner)).length > 1)
      = decide (v ≠ lookupD scores winner ∨
          2 ≤ ((scores.map (fun p => p.2)).filter
            (fun sv => sv == lookupD scores winner)).length) := by
    intro v _
    rw [Bool.eq_iff_iff]
    simp only [Bool.or_eq_true, bne_iff_ne, decide_eq_true_eq]
    constructor
    · rintro (h | h)
      · exact Or.inl h
      · exact Or.inr h
    · rintro (h | h)
      · exact Or.inl h
      · exact Or.inr h
  rw [List.filter_congr hpred]
  simp only [specSecondHighest]
  rw [foldl_max_zero]

/-! Claim theorems. -/

/-- C6: for every tree, `calculate` on an empty answer list fails with the
typed `MISSING_ANSWERS` error, before any other check — no other error code
can be produced for empty answers, regardless of the tree. -/
theorem empty_answers_missing (tree : DecisionTree) :
    calculate tree [] = .error (.typed .MISSING_ANSWERS "No answers provided") := rfl

/-- C8: `calculate` is deterministic.  The source mutates only local
accumulators and consults no ambient state, clock or randomness, so its
embedding is a pure function of the tree and the answer list; two
invocations on identical inputs are definitionally equal (result components
and error alike). -/
theorem calculate_deterministic (tree : DecisionTree) (answers : List Answer) :
    calculate tree answers = calculate tree answers := rfl

/-- C7: a non-empty answer list in which every answer names the expected
question and an existing option, but whose last selected option is still
non-terminal, makes `calculate` fail with `INVALID_ANSWER_PATH` and the
did-not-reach-a-valid-end-node message. -/
theorem incomplete_path_invalid (tree : DecisionTree) (answers : List Answer)
    (hne : answers ≠ []) (hpw : isNonTerminalWalk tree answers = true) :
    calculate tree answers =
      .error (.typed .INVALID_ANSWER_PATH "Answer path did not reach a valid end node") := by
  unfold isNonTerminalWalk at hpw
  cases hi : initialExpected tree with
  | none => rw [hi] at hpw; cases hpw
  | some e =>
    rw [hi] at hpw
    cases answers with
    | nil => exact absurd rfl hne
    | cons a rest =>
      have hv : validateAnswerPath tree (a :: rest) =
          .error (.typed .INVALID_ANSWER_PATH "Answer path did not reach a valid end node") := by
        show walkPath tree (initialExpected tree) 0 (a :: rest) = _
        rw [hi]
        exact walkPath_incomplete tree (a :: rest) e 0 hpw
      simp [calculate, hv]

/-- C7 witness: on the test tree, answering only the first question (whose
selected option continues to `q2`) fails with the end-node error. -/
theorem incomplete_path_invalid_witness :
    calculate mockTree [{ questionId := "q1", optionId := "opt1" }] =
      .error (.typed .INVALID_ANSWER_PATH "Answer path did not reach a valid end node") :=
  incomplete_path_invalid mockTree [{ questionId := "q1", optionId := "opt1" }]
    (by simp) rfl

/-- C9: the engine has exactly one failure mode outside the typed error
codes: a winner with no `Result` descriptor makes `calculate` throw the
plain `Result not found for technology: ...` error (first conjunct, at a
concrete tree whose outright winner `x` has no descriptor).  That branch is
unreachable when the winner came from the documentation-completeness tie-break:
whenever strategy 1 fires (exactly one tied key has a descriptor), the key
`breakTie` returns has a descriptor (second conjunct). -/
theorem untyped_result_not_found :
    calculate tC9 [{ questionId := "q1", optionId := "o1" }] =
      .error (.untyped "Result not found for technology: x") ∧
    ∀ (tree : DecisionTree) (tied : List String) (s : List (String × Int)) (w : String),
      tied.filter (fun t => (resultsLookup tree.results t).isSome) = [w] →
      (resultsLookup tree.results (breakTie tied s tree).1).isSome = true := by
  constructor
  · rfl
  · intro tree tied s w hf
    have h1 : (tied.filter (fun t => (resultsLookup tree.results t).isSome)).length = 1 := by
      rw [hf]
      rfl
    have hw : w ∈ tied.filter (fun t => (resultsLookup tree.results t).isSome) := by
      rw [hf]
      exact List.mem_cons_self w []
    have hmem := (List.mem_filter.mp hw).2
    simp only [breakTie]
    rw [if_pos h1, hf]
    exact hmem

/-- C9 witness: on the test tree, with tied keys `zzz` (no descriptor) and
`tech1` (descriptor present), strategy 1 picks a key with a descriptor. -/
theorem untyped_result_not_found_witness :
    (resultsLookup mockTree.results (breakTie ["zzz", "tech1"] [] mockTree).1).isSome = true :=
  untyped_result_not_found.2 mockTree ["zzz", "tech1"] [] "tech1" rfl

/-- C2 (amended): the confidence label is classified from
`difference = winnerScore - secondHighest` with `secondHighest` the
set-based second-highest CLAMPED at 0 (`specSecondHighest`):
`difference >= 5` is exactly `high`, `2 <= difference < 5` exactly `medium`,
and `difference < 2` exactly `low`. -/
theorem confidence_secondHighest_amended (scores : List (String × Int)) (winner : String) :
    (calculateConfidence scores winner = .high ↔
      5 ≤ lookupD scores winner - specSecondHighest scores winner) ∧
    (calculateConfidence scores winner = .medium ↔
      (2 ≤ lookupD scores winner - specSecondHighest scores winner ∧
        lookupD scores winner - specSecondHighest scores winner < 5)) ∧
    (calculateConfidence scores winner = .low ↔
      lookupD scores winner - specSecondHighest scores winner < 2) := by
  have hsec := secondHighest_code_eq scores winner
  simp only [calculateConfidence]
  rw [hsec]
  set d := lookupD scores winner - specSecondHighest scores winner with hd
  by_cases h5 : 5 ≤ d
  · rw [if_pos (show d ≥ 5 from h5)]
    exact ⟨⟨fun _ => h5, fun _ => rfl⟩,
      ⟨fun h => Confidence.noConfusion h, fun h => absurd h5 (by omega)⟩,
      ⟨fun h => Confidence.noConfusion h, fun h => absurd h5 (by omega)⟩⟩
  · rw [if_neg (show ¬ d ≥ 5 from h5)]
    by_cases h2 : 2 ≤ d
    · rw [if_pos (show d ≥ 2 from h2)]
      exact ⟨⟨fun h => Confidence.noConfusion h, fun h => absurd h h5⟩,
        ⟨fun _ => ⟨h2, by omega⟩, fun _ => rfl⟩,
        ⟨fun h => Confidence.noConfusion h, fun h => absurd h (by omega)⟩⟩
    · rw [if_neg (show ¬ d ≥ 2 from h2)]
      exact ⟨⟨fun h => Confidence.noConfusion h, fun h => absurd h h5⟩,
        ⟨fun h => Confidence.noConfusion h, fun h => absurd h.1 h2⟩,
        ⟨fun _ => by omega, fun _ => rfl⟩⟩

/-- C2 counterexample: for scores `{a: 3, b: -3}` with winner `a`, the
claim's unclamped second-highest is `-3`, whose difference `6 ≥ 5` predicts
`high`; the code clamps the second highest to `0`
(`Math.max(...otherScores, 0)`) and returns `medium`. -/
theorem confidence_claim_cex :
    claimSecondHighest [("a", 3), ("b", -3)] "a" = -3 ∧
    5 ≤ lookupD [("a", 3), ("b", -3)] "a" - claimSecondHighest [("a", 3), ("b", -3)] "a" ∧
    calculateConfidence [("a", 3), ("b", -3)] "a" = .medium := by
  refine ⟨rfl, by decide, rfl⟩

/-- C1 (amended): after a terminal option, trailing answers are not
validated — `validateAnswerPath` succeeds whatever follows a legal walk —
but they ARE scored: `calculateScores` runs over the whole list, and each
key's total on `pre ++ trailing` is its total on `pre` plus the trailing
answers' resolvable contributions. -/
theorem trailing_answers_amended (tree : DecisionTree) (pre trailing : List Answer)
    (hwalk : isWalk tree pre = true) :
    validateAnswerPath tree (pre ++ trailing) = .ok () ∧
    ∀ k, lookupD (calculateScores tree (pre ++ trailing)) k =
      lookupD (calculateScores tree pre) k + specScoreSum tree trailing k := by
  refine ⟨validateAnswerPath_ok_of_walk tree trailing hwalk, ?_⟩
  intro k
  show lookupD ((pre ++ trailing).foldl (scoreAnswer tree) []) k = _
  rw [List.foldl_append]
  exact lookupD_foldScores tree trailing (pre.foldl (scoreAnswer tree) []) k

/-- C1 witness: on the test tree, `(q1, opt2)` is a complete terminal walk;
appending `(q2, opt3)` still validates, and `tech2`'s score grows by the
trailing option's contribution. -/
theorem trailing_answers_amended_witness :
    validateAnswerPath mockTree
        ([{ questionId := "q1", optionId := "opt2" }] ++
          [{ questionId := "q2", optionId := "opt3" }]) = .ok () ∧
    lookupD (calculateScores mockTree
        ([{ questionId := "q1", optionId := "opt2" }] ++
          [{ questionId := "q2", optionId := "opt3" }])) "tech2" =
      lookupD (calculateScores mockTree [{ questionId := "q1", optionId := "opt2" }]) "tech2" +
        specScoreSum mockTree [{ questionId := "q2", optionId := "opt3" }] "tech2" := by
  have h := trailing_answers_amended mockTree
    [{ questionId := "q1", optionId := "opt2" }]
    [{ questionId := "q2", optionId := "opt3" }] rfl
  exact ⟨h.1, h.2 "tech2"⟩

/-- C1 counterexample: on the test tree, `(q1, opt2)` is terminal; repeating
it as a trailing answer passes validation but the returned scores are
`{tech1: 2, tech2: 6}` — double the one-answer scores `{tech1: 1, tech2: 3}`
— so the trailing answer after the terminal step WAS scored, contradicting
the claim that returned scores cover only the answers up to the terminal
option. -/
theorem trailing_answers_claim_cex :
    (calculate mockTree [{ questionId := "q1", optionId := "opt2" },
        { questionId := "q1", optionId := "opt2" }]).map (fun r => r.scores) =
      .ok [("tech1", 2), ("tech2", 6)] ∧
    calculateScores mockTree [{ questionId := "q1", optionId := "opt2" }] =
      [("tech1", 1), ("tech2", 3)] :=
  ⟨rfl, rfl⟩

/-- C3 (amended): for a legal single linear walk to a terminal option,
provided at least one selected option contributed a score entry (otherwise
`NO_RECOMMENDATION` is thrown) and every scored outcome key has a `Result`
descriptor (otherwise the winner lookup throws), `calculate` succeeds and
its scores map each outcome key to the sum of that key's contributions over
exactly the selected options — keys start at 0 when first seen, and
unmentioned keys are absent. -/
theorem walk_scores_amended (tree : DecisionTree) (answers : List Answer)
    (hwalk : isWalk tree answers = true)
    (hne : calculateScores tree answers ≠ [])
    (hres : ∀ p ∈ calculateScores tree answers,
      (resultsLookup tree.results p.1).isSome = true) :
    ∃ r, calculate tree answers = .ok r ∧
      r.scores = calculateScores tree answers ∧
      ∀ k, lookup? r.scores k =
        if specMentions tree answers k then some (specScoreSum tree answers k) else none := by
  have hv : validateAnswerPath tree answers = .ok () := by
    have h := validateAnswerPath_ok_of_walk tree [] hwalk
    rwa [List.append_nil] at h
  obtain ⟨w, tb, hd⟩ := determineWinner_isOk tree hne
  have hwmem := determineWinner_mem (calculateScores_nodupKeys tree answers) hd
  obtain ⟨hkeys, _⟩ := mem_winnersOf hwmem
  obtain ⟨p, hp, hpw⟩ := List.mem_map.mp hkeys
  have hres' : (resultsLookup tree.results w).isSome = true := hpw ▸ hres p hp
  obtain ⟨res, hre⟩ := Option.isSome_iff_exists.mp hres'
  refine ⟨{ recommendation := w, scores := calculateScores tree answers, result := res,
            answers := answers, tieBreaker := tb,
            confidence := calculateConfidence (calculateScores tree answers) w }, ?_, rfl, ?_⟩
  · simp only [calculate, hv, hd, hre]
  · intro k
    exact lookup?_calculateScores tree answers k

/-- C3 witness: the spec's end-to-end example on the test tree. -/
theorem walk_scores_amended_witness :
    ∃ r, calculate mockTree [{ questionId := "q1", optionId := "opt1" },
          { questionId := "q2", optionId := "opt3" }] = .ok r ∧
      r.scores = calculateScores mockTree [{ questionId := "q1", optionId := "opt1" },
          { questionId := "q2", optionId := "opt3" }] ∧
      ∀ k, lookup? r.scores k =
        if specMentions mockTree [{ questionId := "q1", optionId := "opt1" },
            { questionId := "q2", optionId := "opt3" }] k then
          some (specScoreSum mockTree [{ questionId := "q1", optionId := "opt1" },
            { questionId := "q2", optionId := "opt3" }] k)
        else none :=
  walk_scores_amended mockTree
    [{ questionId := "q1", optionId := "opt1" }, { questionId := "q2", optionId := "opt3" }]
    rfl (by decide) (by decide)

/-- C3 counterexample: a legal walk whose single terminal option has an
empty score mapping is a valid single-path answer sequence, yet `calculate`
does not succeed — it throws `NO_RECOMMENDATION` — refuting the claim's
unconditional "calculate succeeds". -/
theorem walk_scores_claim_cex :
    isWalk tEmptyScores [{ questionId := "q1", optionId := "o1" }] = true ∧
    calculate tEmptyScores [{ questionId := "q1", optionId := "o1" }] =
      .error (.typed .NO_RECOMMENDATION "No technologies scored any points") :=
  ⟨rfl, rfl⟩

/-- C10: every successful `calculate` returns a recommendation that is a key
of the returned score mapping whose stored value is the maximum value of
that mapping — on the outright-winner branch and on both tie-break branches,
since tie-breaking only selects among maximum-achieving keys. -/
theorem winner_achieves_max (tree : DecisionTree) (answers : List Answer)
    (r : RecommendationResult) (h : calculate tree answers = .ok r) :
    r.recommendation ∈ r.scores.map (fun p => p.1) ∧
      lookup? r.scores r.recommendation =
        some (maxIntList (r.scores.map (fun p => p.2))) := by
  simp only [calculate] at h
  cases hv : validateAnswerPath tree answers with
  | error e => simp only [hv] at h; exact Except.noConfusion h
  | ok u =>
    simp only [hv] at h
    cases hd : determineWinner (calculateScores tree answers) tree with
    | error e => simp only [hd] at h; exact Except.noConfusion h
    | ok wtb =>
      obtain ⟨w, tb⟩ := wtb
      simp only [hd] at h
      cases hre : resultsLookup tree.results w with
      | none => simp only [hre] at h; exact Except.noConfusion h
      | some res =>
        simp only [hre] at h
        injection h with h'
        subst h'
        have hn := calculateScores_nodupKeys tree answers
        have hmem := determineWinner_mem hn hd
        obtain ⟨hkmem, hlook⟩ := mem_winnersOf hmem
        refine ⟨hkmem, ?_⟩
        rw [lookup?_eq_some_lookupD hkmem, hlook]

/-- C10 witness: the invariant instantiated on the test tree's full valid
path, whose result record is `rMock`. -/
theorem winner_achieves_max_witness :
    rMock.recommendation ∈ rMock.scores.map (fun p => p.1) ∧
      lookup? rMock.scores rMock.recommendation =
        some (maxIntList (rMock.scores.map (fun p => p.2))) :=
  winner_achieves_max mockTree
    [{ questionId := "q1", optionId := "opt1" }, { questionId := "q2", optionId := "opt3" }]
    rMock rfl

/-- An infix of a list is an infix of any enclosing concatenation. -/
theorem infix_append_outer {α : Type} {l m : List α} (x y : List α) (h : l <:+: m) :
    l <:+: x ++ m ++ y := by
  obtain ⟨s, t, rfl⟩ := h
  exact ⟨x ++ s, t ++ y, by simp [List.append_assoc]⟩

/-- The accumulator and every remaining element occur in the result of
`String.intercalate.go`. -/
theorem intercalate_go_contains (sep : String) :
    ∀ (as : List String) (acc : String),
      acc.data <:+: (String.intercalate.go acc sep as).data ∧
      ∀ k ∈ as, k.data <:+: (String.intercalate.go acc sep as).data := by
  intro as
  induction as with
  | nil =>
    intro acc
    refine ⟨List.infix_refl _, ?_⟩
    intro k hk
    cases hk
  | cons a as ih =>
    intro acc
    have hgo : String.intercalate.go acc sep (a :: as) =
        String.intercalate.go (acc ++ sep ++ a) sep as := rfl
    have hdata : (acc ++ sep ++ a).data = acc.data ++ sep.data ++ a.data := by
      rw [String.data_append, String.data_append]
    obtain ⟨h1, h2⟩ := ih (acc ++ sep ++ a)
    constructor
    · rw [hgo]
      refine List.IsInfix.trans ⟨[], sep.data ++ a.data, ?_⟩ h1
      rw [hdata]
      simp [List.append_assoc]
    · intro k hk
      rw [hgo]
      rcases List.mem_cons.mp hk with rfl | hk'
      · refine List.IsInfix.trans ⟨acc.data ++ sep.data, [], ?_⟩ h1
        rw [hdata]
        simp [List.append_assoc]
      · exact h2 k hk'

/-- Every member of the list occurs (as a character-level infix) in
`String.intercalate sep l`. -/
theorem mem_infix_intercalate {k : String} {l : List String} (sep : String) (h : k ∈ l) :
    k.data <:+: (String.intercalate sep l).data := by
  cases l with
  | nil => cases h
  | cons a as =>
    show k.data <:+: (String.intercalate.go a sep as).data
    rcases List.mem_cons.mp h with rfl | h'
    · exact (intercalate_go_contains sep as k).1
    · exact (intercalate_go_contains sep as a).2 k h'

/-- C4: with at least two outcome keys tied for the maximum and every tied
key holding a `Result` descriptor, `determineWinner` returns the
alphabetically first tied key (ascending, case-sensitive), attaches a
non-empty tie-break explanation in which every tied key occurs (the
explanation lists all tied keys), and the confidence for that winner is
`low`.  The `Nodup` hypothesis states that the mapping has no duplicated
keys, as a JS object cannot (`calculateScores` output always satisfies it). -/
theorem tie_alphabetical_low (s : List (String × Int)) (tree : DecisionTree)
    (hn : (s.map (fun p => p.1)).Nodup)
    (h2 : 2 ≤ (winnersOf s).length)
    (hdesc : ∀ t ∈ winnersOf s, (resultsLookup tree.results t).isSome = true) :
    ∃ w e, determineWinner s tree = .ok (w, some e) ∧ w ∈ winnersOf s ∧
      (∀ k ∈ winnersOf s, w ≤ k) ∧ e ≠ "" ∧
      (∀ k ∈ winnersOf s, k.data <:+: e.data) ∧ calculateConfidence s w = .low := by
  have hwne : winnersOf s ≠ [] := by
    intro he
    rw [he] at h2
    simp at h2
  have hsne : s ≠ [] := by
    intro he
    apply hwne
    rw [he]
    rfl
  have hlen : ¬ (s.map (fun p => p.1)).length = 0 := by simpa using hsne
  have h1 : ¬ (winnersOf s).length = 1 := by omega
  have hfilter : (winnersOf s).filter (fun t => (resultsLookup tree.results t).isSome) =
      winnersOf s := List.filter_eq_self.mpr hdesc
  have hflen : ¬ ((winnersOf s).filter
      (fun t => (resultsLookup tree.results t).isSome)).length = 1 := by
    rw [hfilter]
    omega
  obtain ⟨hmem, hmin⟩ := mergeSort_headD_min (winnersOf s) hwne
  refine ⟨((winnersOf s).mergeSort (fun a b => a ≤ b)).headD "",
    "Tied with " ++ toString (winnersOf s).length ++ " options (" ++
      String.intercalate ", " (winnersOf s) ++
      "). Consider reviewing your requirements - both may be equally suitable.",
    ?_, hmem, hmin, ?_, ?_, ?_⟩
  · simp only [determineWinner, breakTie]
    rw [if_neg hlen, if_neg h1, if_neg hflen]
  · intro he
    have hlen2 := congrArg String.length he
    simp only [String.length_append] at hlen2
    have h10 : ("Tied with ").length = 10 := rfl
    rw [h10] at hlen2
    have h0 : ("").length = 0 := rfl
    rw [h0] at hlen2
    omega
  · intro k hk
    have hi := mem_infix_intercalate ", " hk
    have he : ("Tied with " ++ toString (winnersOf s).length ++ " options (" ++
        String.intercalate ", " (winnersOf s) ++
        "). Consider reviewing your requirements - both may be equally suitable.").data =
        ("Tied with " ++ toString (winnersOf s).length ++ " options (").data ++
          (String.intercalate ", " (winnersOf s)).data ++
          ("). Consider reviewing your requirements - both may be equally suitable.").data := by
      simp [String.data_append, List.append_assoc]
    rw [he]
    exact infix_append_outer _ _ hi
  · apply confidence_low_of_tie hmem
    obtain ⟨t1, t2, ht1, ht2, hne12⟩ :=
      exists_two_of_nodup (show (winnersOf s).Nodup from hn.filter _) h2
    obtain ⟨hk1, hv1⟩ := mem_winnersOf ht1
    obtain ⟨hk2, hv2⟩ := mem_winnersOf ht2
    have he1 : lookup? s t1 = some (maxIntList (s.map (fun p => p.2))) := by
      rw [lookup?_eq_some_lookupD hk1, hv1]
    have he2 : lookup? s t2 = some (maxIntList (s.map (fun p => p.2))) := by
      rw [lookup?_eq_some_lookupD hk2, hv2]
    have hcount := two_values_of_two_keys hne12 he1 he2
    obtain ⟨_, hwl⟩ := mem_winnersOf hmem
    rw [hwl]
    exact hcount

/-- C4 witness: scores `{a: 5, b: 5}` on a tree holding descriptors for both
keys — the winner is alphabetically first, the explanation non-empty and
listing both tied keys, the confidence low. -/
theorem tie_alphabetical_low_witness :
    ∃ w e, determineWinner [("a", 5), ("b", 5)] tAB = .ok (w, some e) ∧
      w ∈ winnersOf [("a", 5), ("b", 5)] ∧
      (∀ k ∈ winnersOf [("a", 5), ("b", 5)], w ≤ k) ∧ e ≠ "" ∧
      (∀ k ∈ winnersOf [("a", 5), ("b", 5)], k.data <:+: e.data) ∧
      calculateConfidence [("a", 5), ("b", 5)] w = .low :=
  tie_alphabetical_low [("a", 5), ("b", 5)] tAB (by decide) (by decide) (by decide)

/-- C5 (amended): `isValid` is true exactly when the error list is empty, so
warnings never make a tree invalid; when the basic-structure stage finds any
error, `validate` returns early with ONLY those errors (it is fail-fast
across that stage boundary); when the basic-structure stage is clean, all
remaining stages run in one pass and their errors and warnings are
concatenated. -/
theorem validator_stages (tree : DecisionTree) :
    ((validate tree).isValid = true ↔ (validate tree).errors = []) ∧
    (validateBasicStructure tree ≠ [] →
      validate tree =
        { isValid := false, errors := validateBasicStructure tree, warnings := [] }) ∧
    (validateBasicStructure tree = [] →
      (validate tree).errors =
        (validateQuestions tree).1 ++ validateReferences tree ++
          (validateReachability tree).1 ++ (validateResults tree).1 ∧
      (validate tree).warnings =
        (validateQuestions tree).2 ++ (validateReachability tree).2 ++
          (validateResults tree).2 ++ validateScoreBalance tree) := by
  refine ⟨?_, ?_, ?_⟩
  · simp only [validate]
    by_cases hlen : (validateBasicStructure tree).length > 0
    · rw [if_pos hlen]
      constructor
      · intro h
        exact Bool.noConfusion h
      · intro h
        have h' : validateBasicStructure tree = [] := h
        rw [h'] at hlen
        simp at hlen
    · rw [if_neg hlen]
      simp [List.isEmpty_iff]
  · intro hbne
    have hlen : (validateBasicStructure tree).length > 0 := List.length_pos.mpr hbne
    simp only [validate]
    rw [if_pos hlen]
  · intro hb
    have hlen : ¬ (validateBasicStructure tree).length > 0 := by
      rw [hb]
      simp
    simp only [validate]
    rw [if_neg hlen, hb]
    exact ⟨by simp, by simp⟩

/-- C5 witness: on a tree with an empty title the early return fires; on the
clean test tree every later stage's output is concatenated. -/
theorem validator_stages_witness :
    validate tNoTitle =
      { isValid := false, errors := validateBasicStructure tNoTitle, warnings := [] } ∧
    (validate mockTree).errors =
      (validateQuestions mockTree).1 ++ validateReferences mockTree ++
        (validateReachability mockTree).1 ++ (validateResults mockTree).1 :=
  ⟨(validator_stages tNoTitle).2.1 (by decide), ((validator_stages mockTree).2.2 rfl).1⟩

/-- C5 counterexample: `tNoTitle` has BOTH an empty title and a duplicated
question id, yet a single `validate` call reports only the title error — the
duplicate-id problem (which the question stage does detect) is not surfaced
in the same pass, refuting "accumulates and reports every structural problem
at once, not fail-fast across its check stages". -/
theorem validator_claim_cex :
    (validate tNoTitle).errors.map (fun e => e.code) = ["MISSING_TREE_TITLE"] ∧
    "DUPLICATE_QUESTION_ID" ∈ (validateQuestions tNoTitle).1.map (fun e => e.code) := by
  exact ⟨rfl, by decide⟩

end ArchJourney
